import Mathlib

/-!
Verification of the occurrence-generation core of the session-system backend.

The definitions below are a shallow embedding of the code in
`src/backend/app/routes/admin.py` (`generate_occurrences`,
`regenerate_occurrences`, `_combine_local_date_time`, the module constant
`TZ`) together with the data model in `src/backend/app/models/`
(`Session`, `SessionBlock`, `ExclusionDate`, `SessionOccurrence`) and the
per-request transaction wrapper `get_db_session` in
`src/backend/app/db.py`.

Modelling conventions:
* A calendar date is its proleptic-Gregorian ordinal (`Nat`), exactly as
  Python's `datetime.date.toordinal`; `toOrdinal y m d` converts a
  year/month/day triple.  `date.weekday()` (0 = Monday .. 6 = Sunday) is
  `weekday`.
* A time of day is minutes since midnight (`Nat`), e.g. 15:30 is 930.
* A timezone-aware datetime (`datetime.combine(d, t, tzinfo=tz)`) is the
  structure `Dt`: the wall-clock date and time plus the IANA key of the
  `tzinfo`.  Every datetime the generation code produces carries the same
  fixed zone, so structural equality of `Dt` coincides with instant
  equality for the duplicate-detection query.
* Database rows are structures; the database is `DB`, a record of row
  lists.  The SQL queries of the two handlers are embedded as list
  filters; the `ORDER BY start_date` of the block query is
  `List.insertionSort`.
* UUIDs are modelled as `Nat` identifiers.
* The handlers raise `NotFoundException` / `ValidationException`; a
  handler is therefore a function into `Except GenError`, and the
  per-request transaction of `get_db_session` (commit on success,
  rollback on exception) is `run_request`.
-/

deriving instance DecidableEq for Except

/-- Proleptic-Gregorian leap-year rule (as in Python's `datetime`). -/
def isLeapYear (y : Nat) : Bool :=
  (y % 4 == 0 && y % 100 != 0) || y % 400 == 0

/-- Days in the months strictly before month `m` (1 = January). -/
def daysBeforeMonth (m : Nat) (leap : Bool) : Nat :=
  [0, 31, 59, 90, 120, 151, 181, 212, 243, 273, 304, 334].getD (m - 1) 0 +
    (if leap && 2 < m then 1 else 0)

/-- `datetime.date(y, m, d).toordinal()`: day number with day 1 = 0001-01-01. -/
def toOrdinal (y m d : Nat) : Nat :=
  365 * (y - 1) + (y - 1) / 4 - (y - 1) / 100 + (y - 1) / 400 +
    daysBeforeMonth m (isLeapYear y) + d

/-- `date.weekday()`: 0 = Monday .. 6 = Sunday.  Ordinal 1 (0001-01-01) is a Monday. -/
def weekday (d : Nat) : Nat := (d + 6) % 7

/-- Fuel-driven worker for `candDays`; the fuel only bounds the recursion
and never cuts it short (see `candDays_eq`). -/
def candDaysGo (e : Nat) : Nat → Nat → List Nat
  | 0, _ => []
  | fuel + 1, d => if d ≤ e then d :: candDaysGo e fuel (d + 7) else []

/-- The day sequence of the `while day <= block.end_date: ... day += 7` loop
shared by `generate_occurrences` and `regenerate_occurrences`: the dates
`d, d + 7, d + 14, ...` up to and including `e`. -/
def candDays (e d : Nat) : List Nat := candDaysGo e (e + 1 - d) d

/-- A timezone-aware Python datetime: wall-clock date and time plus the
IANA key of its `tzinfo`. -/
structure Dt where
  date : Nat
  time : Nat
  tz : String
deriving DecidableEq, Repr

/-- `app/models/session.py::Session`, restricted to the fields the
generation code reads.  `day_of_week` is the nullable `DayOfWeekEnum`
column (0 = Monday .. 6 = Sunday); `start_time`/`end_time` are kept
optional because the handler code guards against `None`. -/
structure Session where
  id : Nat
  session_type : String
  day_of_week : Option Nat
  start_time : Option Nat
  end_time : Option Nat
deriving DecidableEq, Repr

/-- `app/models/session_block.py::SessionBlock` (fields used by generation). -/
structure SessionBlock where
  id : Nat
  year : Nat
  start_date : Nat
  end_date : Nat
  timezone : String
deriving DecidableEq, Repr

/-- Modelled from the spec: the `SessionBlockLink` model file is not under
`src/`; per the spec it is a plain many-to-many join row declaring which
blocks a session participates in. -/
structure SessionBlockLink where
  session_id : Nat
  block_id : Nat
deriving DecidableEq, Repr

/-- `app/models/exclusion_date.py::ExclusionDate` (fields used by generation). -/
structure ExclusionDate where
  year : Nat
  exclusion_date : Nat
deriving DecidableEq, Repr

/-- `app/models/session_occurrence.py::SessionOccurrence`. -/
structure SessionOccurrence where
  session_id : Nat
  block_id : Option Nat
  starts_at : Dt
  ends_at : Dt
  auto_generated : Bool
  cancelled : Bool
  cancellation_reason : Option String
deriving DecidableEq, Repr

/-- The relational store visible to the two handlers. -/
structure DB where
  sessions : List Session
  blocks : List SessionBlock
  links : List SessionBlockLink
  exclusions : List ExclusionDate
  occurrences : List SessionOccurrence
deriving DecidableEq, Repr

/-- `admin.py` module constant `TZ = ZoneInfo("Pacific/Auckland")`. -/
def TZ : String := "Pacific/Auckland"

/-- `admin.py::_combine_local_date_time`: `datetime.combine(d, t, tzinfo=TZ)`. -/
def combine_local_date_time (d t : Nat) : Dt := ⟨d, t, TZ⟩

/-- `datetime.combine(d, t, tzinfo=tz)` for an explicit zone. -/
def datetime_combine (d t : Nat) (tz : String) : Dt := ⟨d, t, tz⟩

/-- The block query of both handlers:
`SELECT session_blocks JOIN session_block_links ON block_id = id
 WHERE session_id = :sid ORDER BY start_date`. -/
def linked_blocks (db : DB) (sid : Nat) : List SessionBlock :=
  (db.blocks.filter
      (fun b => db.links.any (fun l => l.session_id == sid && l.block_id == b.id))).insertionSort
    (fun a b => a.start_date ≤ b.start_date)

/-- The exclusion query plus per-year lookup of both handlers: the handlers
fetch all `ExclusionDate` rows whose `year` is among the linked blocks'
years into a `year -> set of dates` map and read it back per block with
`.get(block.year, set())`; for a block year this is exactly the dates of
the rows carrying that year. -/
def exclusions_for (db : DB) (y : Nat) : List Nat :=
  (db.exclusions.filter (fun e => e.year == y)).map (fun e => e.exclusion_date)

/-- The `created` / `skipped_existing` accumulator together with the
occurrence rows visible to the duplicate-check query (the handlers run
with autoflush, so rows added earlier in the same call are seen by the
later `SELECT`s). -/
structure GenAcc where
  occs : List SessionOccurrence
  created : Nat
  skipped_existing : Nat
deriving DecidableEq, Repr

/-- The duplicate-detection query:
`SELECT id FROM session_occurrences WHERE session_id = :sid AND starts_at = :s`. -/
def occ_exists_at (occs : List SessionOccurrence) (sid : Nat) (s : Dt) : Bool :=
  occs.any (fun o => o.session_id == sid && o.starts_at == s)

/-- The row inserted by both handlers (`auto_generated=True`, block
attribution, no cancellation). -/
def new_occ (sid bid d st et : Nat) (tz : String) : SessionOccurrence :=
  ⟨sid, some bid, datetime_combine d st tz, datetime_combine d et tz, true, false, none⟩

/-- Loop body of `generate_occurrences` for one candidate date `day`:
skip excluded dates outright, otherwise count a duplicate or insert. -/
def gen_step (sid st et bid : Nat) (excl : List Nat) (acc : GenAcc) (day : Nat) : GenAcc :=
  if day ∈ excl then acc
  else
    let s := combine_local_date_time day st
    if occ_exists_at acc.occs sid s then
      { acc with skipped_existing := acc.skipped_existing + 1 }
    else
      { acc with
          occs := acc.occs ++ [new_occ sid bid day st et TZ],
          created := acc.created + 1 }

/-- `days_ahead = (int(day_of_week) - start_date.weekday() + 7) % 7;
day = start_date + days_ahead` — the anchored first candidate of
`generate_occurrences`.  (`weekday` is < 7, so the Python `int`
subtraction never goes negative once `+ 7` is added; the `Nat` form
`dow + 7 - weekday` is the same value.) -/
def first_candidate (dow start_date : Nat) : Nat :=
  start_date + (dow + 7 - weekday start_date) % 7

/-- Per-block expansion of `generate_occurrences`. -/
def gen_block (db : DB) (sid st et dow : Nat) (acc : GenAcc) (b : SessionBlock) : GenAcc :=
  (candDays b.end_date (first_candidate dow b.start_date)).foldl
    (gen_step sid st et b.id (exclusions_for db b.year)) acc

/-- The two exception kinds the handlers raise (`NotFoundException`,
`ValidationException` with its `detail`). -/
inductive GenError where
  | notFound
  | validation (detail : String)
deriving DecidableEq, Repr

/-- `admin.py::generate_occurrences` (POST .../occurrences/generate). -/
def generate (db : DB) (sid : Nat) : Except GenError (DB × Nat × Nat) :=
  match db.sessions.find? (fun x => x.id == sid) with
  | none => .error .notFound
  | some s =>
    if s.session_type != "term" then
      .error (.validation "Occurrence generation is for term sessions")
    else
      match s.day_of_week, s.start_time, s.end_time with
      | some dow, some st, some et =>
        let blocks := linked_blocks db sid
        if blocks.isEmpty then
          .error (.validation "No blocks selected for this session. Please add blocks first.")
        else
          let acc := blocks.foldl (gen_block db sid st et dow) ⟨db.occurrences, 0, 0⟩
          .ok ({ db with occurrences := acc.occs }, acc.created, acc.skipped_existing)
      | _, _, _ => .error (.validation "Session schedule is incomplete")

/-- Loop body of `regenerate_occurrences` for one day of the 7-day walk:
`if s.day_of_week and day.weekday() == s.day_of_week.value and day not in
exclusions`.  Python's `and` evaluates the truthiness of the
`DayOfWeekEnum` itself, so a `None` day (short-circuit) and `MONDAY`
(whose integer value 0 is falsy) both fail the condition. -/
def regen_step (sid st et bid : Nat) (dow : Option Nat) (excl : List Nat) (tz : String)
    (acc : GenAcc) (day : Nat) : GenAcc :=
  match dow with
  | none => acc
  | some v =>
    if v != 0 && weekday day == v && !(decide (day ∈ excl)) then
      let s := datetime_combine day st tz
      if occ_exists_at acc.occs sid s then
        { acc with skipped_existing := acc.skipped_existing + 1 }
      else
        { acc with
            occs := acc.occs ++ [new_occ sid bid day st et tz],
            created := acc.created + 1 }
    else acc

/-- Per-block expansion of `regenerate_occurrences`: the walk starts at
`block.start_date` itself (no anchoring) and the zone is the literal
`ZoneInfo("Pacific/Auckland")` created inside the loop. -/
def regen_block (db : DB) (sid st et : Nat) (dow : Option Nat) (acc : GenAcc)
    (b : SessionBlock) : GenAcc :=
  (candDays b.end_date b.start_date).foldl
    (regen_step sid st et b.id dow (exclusions_for db b.year) "Pacific/Auckland") acc

/-- `admin.py::regenerate_occurrences` (POST .../occurrences/regenerate).
The `start_time`/`end_time` columns are non-nullable in the schema; were
one missing, the Python code would raise a `TypeError` inside
`datetime.combine`, which this embedding surfaces as an eager error after
the block check. -/
def regenerate (db : DB) (sid : Nat) (delete_auto_generated : Bool) :
    Except GenError (DB × Nat × Nat × Nat) :=
  match db.sessions.find? (fun x => x.id == sid) with
  | none => .error .notFound
  | some s =>
    if s.session_type != "term" then
      .error (.validation "Regeneration is for term sessions")
    else
      let kept :=
        if delete_auto_generated then
          db.occurrences.filter (fun o => !(o.session_id == sid && o.auto_generated))
        else db.occurrences
      let deleted := db.occurrences.length - kept.length
      let blocks := linked_blocks db sid
      if blocks.isEmpty then
        .error (.validation "No blocks selected for this session. Please add blocks first.")
      else
        match s.start_time, s.end_time with
        | some st, some et =>
          let acc := blocks.foldl (regen_block db sid st et s.day_of_week) ⟨kept, 0, 0⟩
          .ok ({ db with occurrences := acc.occs }, deleted, acc.created, acc.skipped_existing)
        | _, _ => .error (.validation "Session start or end time is not set")

/-- `app/db.py::get_db_session`: the handler runs inside one per-request
transaction — commit the new state on success, roll back to the old state
on any exception. -/
def run_request {α : Type} (f : DB → Except GenError (DB × α)) (db : DB) :
    DB × Except GenError α :=
  match f db with
  | .ok (db2, a) => (db2, .ok a)
  | .error e => (db, .error e)

/-! ### Concrete database states used by the concrete theorems below.

Times encode 15:30 as 930 and 17:00 as 1020 (minutes since midnight);
dates are `toOrdinal` ordinals.  Session, block and link identifiers are
small naturals standing in for the UUIDs. -/

/-- A `term` session on Wednesday (`day_of_week = 2`), 15:30-17:00. -/
def wedSession : Session := ⟨1, "term", some 2, some 930, some 1020⟩

/-- A `term` session on Monday (`day_of_week = 0`), 15:30-17:00. -/
def mondaySession : Session := ⟨1, "term", some 0, some 930, some 1020⟩

/-- A `special` session (no weekly rule). -/
def specialSession : Session := ⟨1, "special", none, some 930, some 1020⟩

/-- A `term` session whose `day_of_week` is null. -/
def incompleteSession : Session := ⟨1, "term", none, some 930, some 1020⟩

/-- 2026-02-04, a Wednesday. -/
def feb4 : Nat := toOrdinal 2026 2 4

/-- 2026-02-11, a Wednesday. -/
def feb11 : Nat := toOrdinal 2026 2 11

/-- 2026-02-18, a Wednesday. -/
def feb18 : Nat := toOrdinal 2026 2 18

/-- 2026-02-02, a Monday. -/
def feb2 : Nat := toOrdinal 2026 2 2

/-- Block 2026-02-04 .. 2026-02-18 (scenario A/B). -/
def blockA : SessionBlock := ⟨1, 2026, feb4, feb18, "Pacific/Auckland"⟩

/-- One-day block on Monday 2026-02-02. -/
def blockMon : SessionBlock := ⟨1, 2026, feb2, feb2, "Pacific/Auckland"⟩

/-- One-day block on 2026-02-04 whose declared timezone is Sydney. -/
def blockSyd : SessionBlock := ⟨1, 2026, feb4, feb4, "Australia/Sydney"⟩

/-- Year-2025 block whose admin-entered date range nevertheless covers
February 2026 (the block form does not validate dates against the year). -/
def blockY25 : SessionBlock := ⟨2, 2025, feb4, feb18, "Pacific/Auckland"⟩

/-- One-day block on 2026-02-04. -/
def blockOneDay : SessionBlock := ⟨1, 2026, feb4, feb4, "Pacific/Auckland"⟩

/-- The row `generate` inserts for Wednesday date `d` of block 1. -/
def genOcc (d : Nat) : SessionOccurrence :=
  ⟨1, some 1, ⟨d, 930, TZ⟩, ⟨d, 1020, TZ⟩, true, false, none⟩

/-- The row inserted for date `d` of block 2. -/
def genOccB2 (d : Nat) : SessionOccurrence :=
  ⟨1, some 2, ⟨d, 930, TZ⟩, ⟨d, 1020, TZ⟩, true, false, none⟩

/-- A manually created occurrence (`auto_generated = false`) at
2026-02-04 15:30. -/
def manualOcc : SessionOccurrence :=
  ⟨1, none, ⟨feb4, 930, TZ⟩, ⟨feb4, 1020, TZ⟩, false, false, none⟩

/-- An auto-generated occurrence at 2026-03-04 15:30. -/
def autoOccMar : SessionOccurrence :=
  ⟨1, some 1, ⟨toOrdinal 2026 3 4, 930, TZ⟩, ⟨toOrdinal 2026 3 4, 1020, TZ⟩, true, false, none⟩

/-- Scenario A: Wednesday session, block Feb 4 - Feb 18 2026, no exclusions. -/
def dbScenarioA : DB := ⟨[wedSession], [blockA], [⟨1, 1⟩], [], []⟩

/-- Scenario B: scenario A plus an exclusion on 2026-02-11. -/
def dbScenarioB : DB := ⟨[wedSession], [blockA], [⟨1, 1⟩], [⟨2026, feb11⟩], []⟩

/-- Monday session with a one-day block on a Monday. -/
def dbMonday : DB := ⟨[mondaySession], [blockMon], [⟨1, 1⟩], [], []⟩

/-- Wednesday session with a block declaring the Sydney timezone. -/
def dbSydney : DB := ⟨[wedSession], [blockSyd], [⟨1, 1⟩], [], []⟩

/-- Scenario A plus a pre-existing manual occurrence at the 2026-02-04
candidate instant. -/
def dbPreExisting : DB := ⟨[wedSession], [blockA], [⟨1, 1⟩], [], [manualOcc]⟩

/-- Two linked blocks of different `year` with overlapping ranges, and an
exclusion recorded for 2026 on 2026-02-11. -/
def dbCrossYear : DB :=
  ⟨[wedSession], [blockA, blockY25], [⟨1, 1⟩, ⟨1, 2⟩], [⟨2026, feb11⟩], []⟩

/-- A manual occurrence at the candidate instant plus an auto-generated
one elsewhere, for the destructive-regenerate scenario. -/
def dbManualAuto : DB := ⟨[wedSession], [blockOneDay], [⟨1, 1⟩], [], [manualOcc, autoOccMar]⟩

/-- A complete term session with no linked blocks but an existing
auto-generated occurrence. -/
def dbNoBlocks : DB := ⟨[wedSession], [], [], [], [autoOccMar]⟩

/-- An empty database. -/
def dbEmpty : DB := ⟨[], [], [], [], []⟩

/-- Only a `special` session. -/
def dbSpecial : DB := ⟨[specialSession], [], [], [], []⟩

/-- Only a term session with a null `day_of_week`. -/
def dbIncomplete : DB := ⟨[incompleteSession], [], [], [], []⟩

/-- Number of days of `days` that are not excluded. -/
def not_excluded_count (excl : List Nat) (days : List Nat) : Nat :=
  (days.filter (fun d => decide (d ∉ excl))).length

/-- Number of non-excluded candidate dates of one block under `generate`. -/
def block_cand_count (db : DB) (dow : Nat) (b : SessionBlock) : Nat :=
  not_excluded_count (exclusions_for db b.year)
    (candDays b.end_date (first_candidate dow b.start_date))

/-- The accumulator `generate` ends with on its success path (blocks in
query order, starting from the existing rows and zero counters). -/
def generate_result (db : DB) (sid st et dow : Nat) : GenAcc :=
  (linked_blocks db sid).foldl (gen_block db sid st et dow) ⟨db.occurrences, 0, 0⟩

/-- The occurrence rows surviving `regenerate`'s optional bulk delete
(`DELETE FROM session_occurrences WHERE session_id = :sid AND
auto_generated`). -/
def regen_kept (db : DB) (sid : Nat) (delA : Bool) : List SessionOccurrence :=
  if delA then db.occurrences.filter (fun o => !(o.session_id == sid && o.auto_generated))
  else db.occurrences

/-- The accumulator `regenerate` ends with on its success path. -/
def regen_result (db : DB) (sid st et : Nat) (dow : Option Nat) (delA : Bool) : GenAcc :=
  (linked_blocks db sid).foldl (regen_block db sid st et dow) ⟨regen_kept db sid delA, 0, 0⟩

/-! ### Candidate-day sequence lemmas -/

/-- The fuel of `candDaysGo` is irrelevant once it covers the span. -/
theorem candDaysGo_congr (e : Nat) :
    ∀ f1 f2 d, e + 1 - d ≤ f1 → e + 1 - d ≤ f2 →
      candDaysGo e f1 d = candDaysGo e f2 d := by
  intro f1
  induction f1 with
  | zero =>
    intro f2 d h1 _
    have hd : ¬ d ≤ e := by omega
    cases f2 with
    | zero => rfl
    | succ g => simp [candDaysGo, hd]
  | succ g ih =>
    intro f2 d h1 h2
    cases f2 with
    | zero =>
      have hd : ¬ d ≤ e := by omega
      simp [candDaysGo, hd]
    | succ g2 =>
      by_cases hd : d ≤ e
      · simp only [candDaysGo, hd, if_pos]
        rw [ih g2 (d + 7) (by omega) (by omega)]
      · simp [candDaysGo, hd]

/-- `candDays` satisfies the defining equation of the source's `while` loop. -/
theorem candDays_eq (e d : Nat) :
    candDays e d = if d ≤ e then d :: candDays e (d + 7) else [] := by
  by_cases hd : d ≤ e
  · have h1 : e + 1 - d = (e - d) + 1 := by omega
    simp only [candDays, h1, candDaysGo, hd, if_pos]
    rw [candDaysGo_congr e (e - d) (e + 1 - (d + 7)) (d + 7) (by omega) (by omega)]
  · simp only [candDays, hd, if_neg, not_false_iff]
    cases hf : e + 1 - d with
    | zero => rfl
    | succ g => simp [candDaysGo, hd]

/-- Every candidate day is the walk's start plus a multiple of 7 days, and
never beyond the block's end date. -/
theorem mem_candDaysGo (e : Nat) :
    ∀ f d x, x ∈ candDaysGo e f d → ∃ k, x = d + 7 * k ∧ x ≤ e := by
  intro f
  induction f with
  | zero => intro d x hx; simp [candDaysGo] at hx
  | succ g ih =>
    intro d x hx
    by_cases hd : d ≤ e
    · simp only [candDaysGo, hd, if_pos, List.mem_cons] at hx
      rcases hx with hx | hx
      · exact ⟨0, by omega, by omega⟩
      · obtain ⟨k, hk, hke⟩ := ih (d + 7) x hx
        exact ⟨k + 1, by omega, hke⟩
    · simp [candDaysGo, hd] at hx

/-- Membership form for `candDays`. -/
theorem mem_candDays (e d x : Nat) (hx : x ∈ candDays e d) :
    ∃ k, x = d + 7 * k ∧ x ≤ e :=
  mem_candDaysGo e (e + 1 - d) d x hx

/-- Length of the walk, fuel version. -/
theorem candDaysGo_length (e : Nat) :
    ∀ f d, e + 1 - d ≤ f →
      (candDaysGo e f d).length = if d ≤ e then (e - d) / 7 + 1 else 0 := by
  intro f
  induction f with
  | zero =>
    intro d h
    have hd : ¬ d ≤ e := by omega
    simp [candDaysGo, hd]
  | succ g ih =>
    intro d h
    by_cases hd : d ≤ e
    · simp only [candDaysGo, hd, if_pos, List.length_cons]
      rw [ih (d + 7) (by omega)]
      split <;> omega
    · simp [candDaysGo, hd]

/-! ### Weekday arithmetic -/

/-- Stepping any number of weeks does not change the weekday. -/
theorem weekday_add_weeks (a k : Nat) : weekday (a + 7 * k) = weekday a := by
  simp only [weekday]
  omega

/-- The anchored first candidate of `generate` falls on the requested
weekday (the `DayOfWeekEnum` value is below 7). -/
theorem weekday_first_candidate (dow start : Nat) (h7 : dow < 7) :
    weekday (first_candidate dow start) = dow := by
  simp only [first_candidate, weekday]
  omega

/-- When the block already starts on the session's weekday the modulo
offset is zero and the first candidate is the start date itself. -/
theorem first_candidate_eq_self (dow start : Nat) (h : weekday start = dow) :
    first_candidate dow start = start := by
  simp only [first_candidate, weekday] at h ⊢
  omega

/-! ### Small query lemmas -/

/-- A positive duplicate check stays positive when rows are appended. -/
theorem occ_exists_at_append (occs ext : List SessionOccurrence) (sid : Nat) (s : Dt)
    (h : occ_exists_at occs sid s = true) :
    occ_exists_at (occs ++ ext) sid s = true := by
  simp only [occ_exists_at, List.any_append]
  simp only [occ_exists_at] at h
  simp [h]

/-- Blocks returned by the block query are rows of the block table. -/
theorem mem_linked_blocks (db : DB) (sid : Nat) (b : SessionBlock)
    (h : b ∈ linked_blocks db sid) : b ∈ db.blocks := by
  have hperm := List.perm_insertionSort
    (fun a c : SessionBlock => a.start_date ≤ c.start_date)
    (db.blocks.filter
      (fun x => db.links.any (fun l => l.session_id == sid && l.block_id == x.id)))
  have hmem : b ∈ db.blocks.filter
      (fun x => db.links.any (fun l => l.session_id == sid && l.block_id == x.id)) :=
    hperm.mem_iff.mp h
  exact List.mem_of_mem_filter hmem

/-- Two lists fold identically when the step functions agree on the
list's members. -/
theorem foldl_congr_mem {α β : Type} (l : List α) (f g : β → α → β) :
    ∀ acc, (∀ b a, a ∈ l → f b a = g b a) → l.foldl f acc = l.foldl g acc := by
  induction l with
  | nil => intro acc _; rfl
  | cons x xs ih =>
    intro acc h
    simp only [List.foldl_cons]
    rw [h acc x (List.mem_cons_self x xs)]
    exact ih _ (fun b a ha => h b a (List.mem_cons_of_mem x ha))

/-! ### Per-block fold lemmas for `generate` -/

/-- The walk only appends rows, and every appended row is the standard
auto-generated row of some non-excluded candidate day. -/
theorem gen_fold_occs (sid st et bid : Nat) (excl : List Nat) :
    ∀ (days : List Nat) (acc : GenAcc),
      ∃ ext, (days.foldl (gen_step sid st et bid excl) acc).occs = acc.occs ++ ext ∧
        ∀ o ∈ ext, ∃ d, d ∈ days ∧ d ∉ excl ∧ o = new_occ sid bid d st et TZ := by
  intro days
  induction days with
  | nil => intro acc; exact ⟨[], by simp, by simp⟩
  | cons day rest ih =>
    intro acc
    simp only [List.foldl_cons]
    obtain ⟨ext, hext, hprov⟩ := ih (gen_step sid st et bid excl acc day)
    by_cases hex : day ∈ excl
    · refine ⟨ext, ?_, ?_⟩
      · rw [hext]; simp [gen_step, hex]
      · intro o ho
        obtain ⟨d, hd, hdn, hoe⟩ := hprov o ho
        exact ⟨d, List.mem_cons_of_mem _ hd, hdn, hoe⟩
    · by_cases hoc : occ_exists_at acc.occs sid (combine_local_date_time day st) = true
      · refine ⟨ext, ?_, ?_⟩
        · rw [hext]; simp [gen_step, hex, hoc]
        · intro o ho
          obtain ⟨d, hd, hdn, hoe⟩ := hprov o ho
          exact ⟨d, List.mem_cons_of_mem _ hd, hdn, hoe⟩
      · refine ⟨new_occ sid bid day st et TZ :: ext, ?_, ?_⟩
        · rw [hext]
          simp [gen_step, hex, hoc]
        · intro o ho
          rcases List.mem_cons.mp ho with rfl | ho2
          · exact ⟨day, List.mem_cons_self _ _, hex, rfl⟩
          · obtain ⟨d, hd, hdn, hoe⟩ := hprov o ho2
            exact ⟨d, List.mem_cons_of_mem _ hd, hdn, hoe⟩

/-- After the walk, every non-excluded candidate day has a row at its
start instant. -/
theorem gen_fold_complete (sid st et bid : Nat) (excl : List Nat) :
    ∀ (days : List Nat) (acc : GenAcc) (d : Nat), d ∈ days → d ∉ excl →
      occ_exists_at ((days.foldl (gen_step sid st et bid excl) acc).occs) sid
        (combine_local_date_time d st) = true := by
  intro days
  induction days with
  | nil => intro acc d hd _; simp at hd
  | cons day rest ih =>
    intro acc d hd hdn
    simp only [List.foldl_cons]
    rcases List.mem_cons.mp hd with rfl | hd2
    · obtain ⟨ext, hext, -⟩ :=
        gen_fold_occs sid st et bid excl rest (gen_step sid st et bid excl acc d)
      rw [hext]
      apply occ_exists_at_append
      by_cases hoc : occ_exists_at acc.occs sid (combine_local_date_time d st) = true
      · simp [gen_step, hdn, hoc]
      · simp only [gen_step, if_neg hdn]
        simp only [Bool.not_eq_true] at hoc
        simp only [hoc, Bool.false_eq_true, if_false]
        simp [occ_exists_at, List.any_append, new_occ, combine_local_date_time,
          datetime_combine]
    · exact ih _ d hd2 hdn

/-- Each walk accounts every non-excluded candidate exactly once, as
created or as skipped-existing. -/
theorem gen_fold_counts (sid st et bid : Nat) (excl : List Nat) :
    ∀ (days : List Nat) (acc : GenAcc),
      (days.foldl (gen_step sid st et bid excl) acc).created +
        (days.foldl (gen_step sid st et bid excl) acc).skipped_existing =
      acc.created + acc.skipped_existing + not_excluded_count excl days := by
  intro days
  induction days with
  | nil => intro acc; simp [not_excluded_count]
  | cons day rest ih =>
    intro acc
    simp only [List.foldl_cons]
    rw [ih]
    by_cases hex : day ∈ excl
    · simp [gen_step, hex, not_excluded_count, List.filter_cons]
    · by_cases hoc : occ_exists_at acc.occs sid (combine_local_date_time day st) = true
      · simp [gen_step, hex, hoc, not_excluded_count, List.filter_cons]
        omega
      · simp only [Bool.not_eq_true] at hoc
        simp [gen_step, hex, hoc, not_excluded_count, List.filter_cons]
        omega

/-- When every non-excluded candidate already has a row, the walk inserts
nothing and only counts skips. -/
theorem gen_fold_all_exist (sid st et bid : Nat) (excl : List Nat) :
    ∀ (days : List Nat) (occs : List SessionOccurrence) (c k : Nat),
      (∀ d ∈ days, d ∉ excl →
        occ_exists_at occs sid (combine_local_date_time d st) = true) →
      days.foldl (gen_step sid st et bid excl) ⟨occs, c, k⟩ =
        ⟨occs, c, k + not_excluded_count excl days⟩ := by
  intro days
  induction days with
  | nil => intro occs c k _; simp [not_excluded_count]
  | cons day rest ih =>
    intro occs c k h
    simp only [List.foldl_cons]
    by_cases hex : day ∈ excl
    · have hstep : gen_step sid st et bid excl ⟨occs, c, k⟩ day = ⟨occs, c, k⟩ := by
        simp [gen_step, hex]
      rw [hstep, ih occs c k (fun d hd hdn => h d (List.mem_cons_of_mem _ hd) hdn)]
      simp only [GenAcc.mk.injEq, true_and]
      simp [not_excluded_count, List.filter_cons, hex]
    · have hoc := h day (List.mem_cons_self _ _) hex
      have hstep : gen_step sid st et bid excl ⟨occs, c, k⟩ day = ⟨occs, c, k + 1⟩ := by
        simp [gen_step, hex, hoc]
      rw [hstep, ih occs c (k + 1) (fun d hd hdn => h d (List.mem_cons_of_mem _ hd) hdn)]
      simp only [GenAcc.mk.injEq, true_and]
      simp [not_excluded_count, List.filter_cons, hex]
      omega

/-! ### Whole-call fold lemmas for `generate` -/

/-- Across all blocks, `generate` only appends rows; each appended row is
the standard auto-generated row of a non-excluded candidate day of one of
the blocks. -/
theorem gen_blocks_occs (db : DB) (sid st et dow : Nat) :
    ∀ (bs : List SessionBlock) (acc : GenAcc),
      ∃ ext, (bs.foldl (gen_block db sid st et dow) acc).occs = acc.occs ++ ext ∧
        ∀ o ∈ ext, ∃ b, b ∈ bs ∧
          ∃ d, d ∈ candDays b.end_date (first_candidate dow b.start_date) ∧
            d ∉ exclusions_for db b.year ∧ o = new_occ sid b.id d st et TZ := by
  intro bs
  induction bs with
  | nil => intro acc; exact ⟨[], by simp, by simp⟩
  | cons b rest ih =>
    intro acc
    simp only [List.foldl_cons]
    obtain ⟨ext2, hext2, hprov2⟩ := ih (gen_block db sid st et dow acc b)
    obtain ⟨ext1, hext1, hprov1⟩ := gen_fold_occs sid st et b.id (exclusions_for db b.year)
      (candDays b.end_date (first_candidate dow b.start_date)) acc
    refine ⟨ext1 ++ ext2, ?_, ?_⟩
    · rw [hext2]
      have hgb : (gen_block db sid st et dow acc b).occs = acc.occs ++ ext1 := hext1
      rw [hgb, List.append_assoc]
    · intro o ho
      rcases List.mem_append.mp ho with h1 | h2
      · obtain ⟨d, hd, hdn, hoe⟩ := hprov1 o h1
        exact ⟨b, List.mem_cons_self _ _, d, hd, hdn, hoe⟩
      · obtain ⟨b2, hb2, d, hd, hdn, hoe⟩ := hprov2 o h2
        exact ⟨b2, List.mem_cons_of_mem _ hb2, d, hd, hdn, hoe⟩

/-- After `generate`'s whole fold, every non-excluded candidate day of
every processed block has a row at its start instant. -/
theorem gen_blocks_complete (db : DB) (sid st et dow : Nat) :
    ∀ (bs : List SessionBlock) (acc : GenAcc) (b : SessionBlock), b ∈ bs →
      ∀ d, d ∈ candDays b.end_date (first_candidate dow b.start_date) →
        d ∉ exclusions_for db b.year →
        occ_exists_at ((bs.foldl (gen_block db sid st et dow) acc).occs) sid
          (combine_local_date_time d st) = true := by
  intro bs
  induction bs with
  | nil => intro acc b hb; simp at hb
  | cons b0 rest ih =>
    intro acc b hb d hd hdn
    simp only [List.foldl_cons]
    rcases List.mem_cons.mp hb with rfl | hb2
    · obtain ⟨ext2, hext2, -⟩ :=
        gen_blocks_occs db sid st et dow rest (gen_block db sid st et dow acc b)
      rw [hext2]
      apply occ_exists_at_append
      exact gen_fold_complete sid st et b.id (exclusions_for db b.year) _ acc d hd hdn
    · exact ih _ b hb2 d hd hdn

/-- The two counters of `generate` account every non-excluded candidate
of every block exactly once. -/
theorem gen_blocks_counts (db : DB) (sid st et dow : Nat) :
    ∀ (bs : List SessionBlock) (acc : GenAcc),
      (bs.foldl (gen_block db sid st et dow) acc).created +
        (bs.foldl (gen_block db sid st et dow) acc).skipped_existing =
      acc.created + acc.skipped_existing + (bs.map (block_cand_count db dow)).sum := by
  intro bs
  induction bs with
  | nil => intro acc; simp
  | cons b rest ih =>
    intro acc
    simp only [List.foldl_cons, List.map_cons, List.sum_cons]
    rw [ih]
    have hc := gen_fold_counts sid st et b.id (exclusions_for db b.year)
      (candDays b.end_date (first_candidate dow b.start_date)) acc
    have hgb : (gen_block db sid st et dow acc b).created +
        (gen_block db sid st et dow acc b).skipped_existing =
        acc.created + acc.skipped_existing + block_cand_count db dow b := hc
    omega

/-- When every candidate of every block already has a row, the whole fold
changes nothing and only counts skips. -/
theorem gen_blocks_all_exist (db : DB) (sid st et dow : Nat) :
    ∀ (bs : List SessionBlock) (occs : List SessionOccurrence) (c k : Nat),
      (∀ b ∈ bs, ∀ d ∈ candDays b.end_date (first_candidate dow b.start_date),
        d ∉ exclusions_for db b.year →
        occ_exists_at occs sid (combine_local_date_time d st) = true) →
      bs.foldl (gen_block db sid st et dow) ⟨occs, c, k⟩ =
        ⟨occs, c, k + (bs.map (block_cand_count db dow)).sum⟩ := by
  intro bs
  induction bs with
  | nil => intro occs c k _; simp
  | cons b rest ih =>
    intro occs c k h
    simp only [List.foldl_cons]
    have hstep : gen_block db sid st et dow ⟨occs, c, k⟩ b =
        ⟨occs, c, k + block_cand_count db dow b⟩ := by
      have := gen_fold_all_exist sid st et b.id (exclusions_for db b.year)
        (candDays b.end_date (first_candidate dow b.start_date)) occs c k
        (fun d hd hdn => h b (List.mem_cons_self _ _) d hd hdn)
      exact this
    rw [hstep, ih occs c (k + block_cand_count db dow b)
      (fun b2 hb2 d hd hdn => h b2 (List.mem_cons_of_mem _ hb2) d hd hdn)]
    simp only [List.map_cons, List.sum_cons, GenAcc.mk.injEq, true_and]
    omega

/-! ### Fold lemmas for `regenerate` -/

/-- Shape of one `regenerate` loop step: it leaves the accumulator alone,
counts a skip, or inserts the standard row — the last two only when the
truthiness-and-weekday condition holds. -/
theorem regen_step_shape (sid st et bid : Nat) (dow : Option Nat) (excl : List Nat)
    (tz : String) (acc : GenAcc) (day : Nat) :
    ((regen_step sid st et bid dow excl tz acc day).occs = acc.occs ∧
      (regen_step sid st et bid dow excl tz acc day).created = acc.created) ∨
    (∃ v, dow = some v ∧ v ≠ 0 ∧ weekday day = v ∧ day ∉ excl ∧
      regen_step sid st et bid dow excl tz acc day =
        { acc with occs := acc.occs ++ [new_occ sid bid day st et tz],
                   created := acc.created + 1 }) := by
  cases hdow : dow with
  | none => left; simp [regen_step]
  | some v =>
    by_cases hc : (v != 0 && weekday day == v && !(decide (day ∈ excl))) = true
    · by_cases hoc : occ_exists_at acc.occs sid (datetime_combine day st tz) = true
      · left; simp [regen_step, hc, hoc]
      · right
        have hc2 := hc
        rw [Bool.and_eq_true, Bool.and_eq_true] at hc2
        obtain ⟨⟨h1, h2⟩, h3⟩ := hc2
        have hv0 : v ≠ 0 := by simpa using h1
        have hwd : weekday day = v := by simpa using h2
        have hnx : day ∉ excl := by simpa using h3
        refine ⟨v, rfl, hv0, hwd, hnx, ?_⟩
        simp only [Bool.not_eq_true] at hoc
        simp [regen_step, hc, hoc]
    · left
      simp only [Bool.not_eq_true] at hc
      simp [regen_step, hc]

/-- The `regenerate` walk only appends rows; each appended row is the
standard row of a day matching the (truthy) weekday condition. -/
theorem regen_fold_occs (sid st et bid : Nat) (dow : Option Nat) (excl : List Nat)
    (tz : String) :
    ∀ (days : List Nat) (acc : GenAcc),
      ∃ ext, (days.foldl (regen_step sid st et bid dow excl tz) acc).occs = acc.occs ++ ext ∧
        ∀ o ∈ ext, ∃ v d, dow = some v ∧ v ≠ 0 ∧ weekday d = v ∧ d ∈ days ∧ d ∉ excl ∧
          o = new_occ sid bid d st et tz := by
  intro days
  induction days with
  | nil => intro acc; exact ⟨[], by simp, by simp⟩
  | cons day rest ih =>
    intro acc
    simp only [List.foldl_cons]
    obtain ⟨ext, hext, hprov⟩ := ih (regen_step sid st et bid dow excl tz acc day)
    rcases regen_step_shape sid st et bid dow excl tz acc day with ⟨hocc, -⟩ | ⟨v, hv, hv0, hwd, hnx, hstep⟩
    · refine ⟨ext, ?_, ?_⟩
      · rw [hext, hocc]
      · intro o ho
        obtain ⟨v, d, hv, hv0, hwd, hd, hdn, hoe⟩ := hprov o ho
        exact ⟨v, d, hv, hv0, hwd, List.mem_cons_of_mem _ hd, hdn, hoe⟩
    · refine ⟨new_occ sid bid day st et tz :: ext, ?_, ?_⟩
      · rw [hext, hstep]
        simp
      · intro o ho
        rcases List.mem_cons.mp ho with rfl | ho2
        · exact ⟨v, day, hv, hv0, hwd, List.mem_cons_self _ _, hnx, rfl⟩
        · obtain ⟨v2, d, hv2, hv0b, hwd2, hd, hdn, hoe⟩ := hprov o ho2
          exact ⟨v2, d, hv2, hv0b, hwd2, List.mem_cons_of_mem _ hd, hdn, hoe⟩

/-- Across all blocks, `regenerate` only appends rows, each the standard
row of a matching day of one of the blocks, composed in the hard-coded
Pacific/Auckland zone. -/
theorem regen_blocks_occs (db : DB) (sid st et : Nat) (dow : Option Nat) :
    ∀ (bs : List SessionBlock) (acc : GenAcc),
      ∃ ext, (bs.foldl (regen_block db sid st et dow) acc).occs = acc.occs ++ ext ∧
        ∀ o ∈ ext, ∃ v d b, dow = some v ∧ v ≠ 0 ∧ weekday d = v ∧ b ∈ bs ∧
          d ∈ candDays b.end_date b.start_date ∧ d ∉ exclusions_for db b.year ∧
          o = new_occ sid b.id d st et "Pacific/Auckland" := by
  intro bs
  induction bs with
  | nil => intro acc; exact ⟨[], by simp, by simp⟩
  | cons b rest ih =>
    intro acc
    simp only [List.foldl_cons]
    obtain ⟨ext2, hext2, hprov2⟩ := ih (regen_block db sid st et dow acc b)
    obtain ⟨ext1, hext1, hprov1⟩ := regen_fold_occs sid st et b.id dow
      (exclusions_for db b.year) "Pacific/Auckland" (candDays b.end_date b.start_date) acc
    refine ⟨ext1 ++ ext2, ?_, ?_⟩
    · rw [hext2]
      have hgb : (regen_block db sid st et dow acc b).occs = acc.occs ++ ext1 := hext1
      rw [hgb, List.append_assoc]
    · intro o ho
      rcases List.mem_append.mp ho with h1 | h2
      · obtain ⟨v, d, hv, hv0, hwd, hd, hdn, hoe⟩ := hprov1 o h1
        exact ⟨v, d, b, hv, hv0, hwd, List.mem_cons_self _ _, hd, hdn, hoe⟩
      · obtain ⟨v, d, b2, hv, hv0, hwd, hb2, hd, hdn, hoe⟩ := hprov2 o h2
        exact ⟨v, d, b2, hv, hv0, hwd, List.mem_cons_of_mem _ hb2, hd, hdn, hoe⟩

/-! ### Success-path and inversion lemmas for the two handlers -/

/-- `generate` on the validated success path. -/
theorem generate_eq (db : DB) (sid : Nat) (s : Session) (dow st et : Nat)
    (hs : db.sessions.find? (fun x => x.id == sid) = some s)
    (hterm : s.session_type = "term")
    (hdow : s.day_of_week = some dow) (hst : s.start_time = some st)
    (het : s.end_time = some et)
    (hb : linked_blocks db sid ≠ []) :
    generate db sid = .ok
      ({ db with occurrences := (generate_result db sid st et dow).occs },
        (generate_result db sid st et dow).created,
        (generate_result db sid st et dow).skipped_existing) := by
  have hbe : (linked_blocks db sid).isEmpty = false := by
    cases hl : linked_blocks db sid with
    | nil => exact absurd hl hb
    | cons a l => rfl
  unfold generate
  simp only [hs, hterm, hdow, hst, het, bne_self_eq_false, Bool.false_eq_true, if_false,
    hbe, generate_result]

/-- Inverting a successful `generate` call. -/
theorem generate_ok_inv (db : DB) (sid : Nat) (r : DB × Nat × Nat)
    (h : generate db sid = .ok r) :
    ∃ s dow st et,
      db.sessions.find? (fun x => x.id == sid) = some s ∧
      s.session_type = "term" ∧
      s.day_of_week = some dow ∧ s.start_time = some st ∧ s.end_time = some et ∧
      linked_blocks db sid ≠ [] ∧
      r = ({ db with occurrences := (generate_result db sid st et dow).occs },
            (generate_result db sid st et dow).created,
            (generate_result db sid st et dow).skipped_existing) := by
  unfold generate at h
  cases hfind : db.sessions.find? (fun x => x.id == sid) with
  | none => simp only [hfind] at h; exact Except.noConfusion h
  | some s =>
    simp only [hfind] at h
    by_cases hterm : s.session_type = "term"
    · have hbt : (s.session_type != "term") = false := by simp [hterm]
      simp only [hbt, Bool.false_eq_true, if_false] at h
      cases hdow : s.day_of_week with
      | none => simp only [hdow] at h; exact Except.noConfusion h
      | some dow =>
        cases hst : s.start_time with
        | none => simp only [hdow, hst] at h; exact Except.noConfusion h
        | some st =>
          cases het : s.end_time with
          | none => simp only [hdow, hst, het] at h; exact Except.noConfusion h
          | some et =>
            simp only [hdow, hst, het] at h
            by_cases hbe : (linked_blocks db sid).isEmpty = true
            · simp only [hbe, if_true] at h
              exact Except.noConfusion h
            · simp only [Bool.not_eq_true] at hbe
              simp only [hbe, Bool.false_eq_true, if_false, Except.ok.injEq] at h
              have hne : linked_blocks db sid ≠ [] := by
                intro hnil
                rw [hnil] at hbe
                simp at hbe
              exact ⟨s, dow, st, et, rfl, hterm, hdow, hst, het, hne,
                by rw [← h]; simp [generate_result]⟩
    · have hbt : (s.session_type != "term") = true := by simp [hterm]
      simp only [hbt, if_true] at h
      exact Except.noConfusion h

/-- `regenerate` on the validated success path. -/
theorem regenerate_eq (db : DB) (sid : Nat) (delA : Bool) (s : Session) (st et : Nat)
    (hs : db.sessions.find? (fun x => x.id == sid) = some s)
    (hterm : s.session_type = "term")
    (hst : s.start_time = some st) (het : s.end_time = some et)
    (hb : linked_blocks db sid ≠ []) :
    regenerate db sid delA = .ok
      ({ db with occurrences := (regen_result db sid st et s.day_of_week delA).occs },
        db.occurrences.length - (regen_kept db sid delA).length,
        (regen_result db sid st et s.day_of_week delA).created,
        (regen_result db sid st et s.day_of_week delA).skipped_existing) := by
  have hbe : (linked_blocks db sid).isEmpty = false := by
    cases hl : linked_blocks db sid with
    | nil => exact absurd hl hb
    | cons a l => rfl
  unfold regenerate
  simp only [hs, hterm, hst, het, bne_self_eq_false, Bool.false_eq_true, if_false,
    hbe, regen_result, regen_kept]

/-- Inverting a successful `regenerate` call. -/
theorem regenerate_ok_inv (db : DB) (sid : Nat) (delA : Bool) (r : DB × Nat × Nat × Nat)
    (h : regenerate db sid delA = .ok r) :
    ∃ s st et,
      db.sessions.find? (fun x => x.id == sid) = some s ∧
      s.session_type = "term" ∧
      s.start_time = some st ∧ s.end_time = some et ∧
      linked_blocks db sid ≠ [] ∧
      r = ({ db with occurrences := (regen_result db sid st et s.day_of_week delA).occs },
            db.occurrences.length - (regen_kept db sid delA).length,
            (regen_result db sid st et s.day_of_week delA).created,
            (regen_result db sid st et s.day_of_week delA).skipped_existing) := by
  unfold regenerate at h
  cases hfind : db.sessions.find? (fun x => x.id == sid) with
  | none => simp only [hfind] at h; exact Except.noConfusion h
  | some s =>
    simp only [hfind] at h
    by_cases hterm : s.session_type = "term"
    · have hbt : (s.session_type != "term") = false := by simp [hterm]
      simp only [hbt, Bool.false_eq_true, if_false] at h
      by_cases hbe : (linked_blocks db sid).isEmpty = true
      · simp only [hbe, if_true] at h
        exact Except.noConfusion h
      · simp only [Bool.not_eq_true] at hbe
        simp only [hbe, Bool.false_eq_true, if_false] at h
        have hne : linked_blocks db sid ≠ [] := by
          intro hnil
          rw [hnil] at hbe
          simp at hbe
        cases hst : s.start_time with
        | none => simp only [hst] at h; exact Except.noConfusion h
        | some st =>
          cases het : s.end_time with
          | none => simp only [hst, het] at h; exact Except.noConfusion h
          | some et =>
            simp only [hst, het, Except.ok.injEq] at h
            exact ⟨s, st, et, rfl, hterm, hst, het, hne,
              by rw [← h]; simp [regen_result, regen_kept]⟩
    · have hbt : (s.session_type != "term") = true := by simp [hterm]
      simp only [hbt, if_true] at h
      exact Except.noConfusion h

/-! ### Claim theorems -/

/-- C10: the per-block expansion loop of both `generate` and `regenerate`
terminates for every block (including `start_date > end_date` or spans
shorter than a week): the candidate date increases by 7 days per
iteration, so the walk visits exactly `(end - start) / 7 + 1` dates when
the range is non-empty and none otherwise, and in particular at most
`end_date + 1 - start` dates — finitely many, bounded by the block's
span. -/
theorem c10_loop_terminates (b : SessionBlock) (d : Nat) :
    (candDays b.end_date d).length =
      (if d ≤ b.end_date then (b.end_date - d) / 7 + 1 else 0) ∧
    (candDays b.end_date d).length ≤ b.end_date + 1 - d := by
  have h : (candDays b.end_date d).length =
      (if d ≤ b.end_date then (b.end_date - d) / 7 + 1 else 0) :=
    candDaysGo_length b.end_date (b.end_date + 1 - d) d (Nat.le_refl _)
  refine ⟨h, ?_⟩
  rw [h]
  split <;> omega

/-- C9: when `generate` or `regenerate` fails with any error, the
per-request transaction (`get_db_session`) rolls the state back, so the
persisted occurrence set is exactly the pre-call state — including the
rows a destructive `regenerate` deleted before hitting the
no-linked-blocks check. -/
theorem c9_transaction_rollback (db : DB) (sid : Nat) (delA : Bool) (e : GenError) :
    (generate db sid = .error e →
      run_request (fun d => generate d sid) db = (db, .error e)) ∧
    (regenerate db sid delA = .error e →
      run_request (fun d => regenerate d sid delA) db = (db, .error e)) := by
  constructor
  · intro h
    simp [run_request, h]
  · intro h
    simp [run_request, h]

/-- C9 witness: a destructive regenerate on a session with an existing
auto-generated occurrence but no linked blocks errors, and the wrapped
request leaves the database — including that occurrence — untouched. -/
theorem c9_witness :
    generate dbNoBlocks 1 =
      .error (.validation "No blocks selected for this session. Please add blocks first.") ∧
    run_request (fun d => regenerate d 1 true) dbNoBlocks =
      (dbNoBlocks,
        .error (.validation "No blocks selected for this session. Please add blocks first.")) ∧
    autoOccMar ∈ (run_request (fun d => regenerate d 1 true) dbNoBlocks).1.occurrences :=
  ⟨by decide,
   (c9_transaction_rollback dbNoBlocks 1 true
      (.validation "No blocks selected for this session. Please add blocks first.")).2
     (by decide),
   by decide⟩

/-- C4: `generate` fails with a not-found error when the session id does
not exist, with validation errors when the session is not of `term` type,
when `day_of_week`/`start_time`/`end_time` is null, or when no blocks are
linked; in every error case it returns no counts (the result is an
`error`, not an `ok` with counts) and, wrapped in the request
transaction, persists nothing. -/
theorem c4_generate_error_cases (db : DB) (sid : Nat) :
    (db.sessions.find? (fun x => x.id == sid) = none →
      generate db sid = .error .notFound) ∧
    (∀ s, db.sessions.find? (fun x => x.id == sid) = some s → s.session_type ≠ "term" →
      generate db sid = .error (.validation "Occurrence generation is for term sessions")) ∧
    (∀ s, db.sessions.find? (fun x => x.id == sid) = some s → s.session_type = "term" →
      (s.day_of_week = none ∨ s.start_time = none ∨ s.end_time = none) →
      generate db sid = .error (.validation "Session schedule is incomplete")) ∧
    (∀ s dow st et, db.sessions.find? (fun x => x.id == sid) = some s →
      s.session_type = "term" → s.day_of_week = some dow → s.start_time = some st →
      s.end_time = some et → linked_blocks db sid = [] →
      generate db sid =
        .error (.validation "No blocks selected for this session. Please add blocks first.")) ∧
    (∀ e, generate db sid = .error e →
      run_request (fun d => generate d sid) db = (db, .error e)) := by
  refine ⟨?_, ?_, ?_, ?_, ?_⟩
  · intro hfind
    unfold generate
    simp only [hfind]
  · intro s hs hterm
    have hbt : (s.session_type != "term") = true := by simpa using hterm
    unfold generate
    simp only [hs, hbt, if_true]
  · intro s hs hterm hnul
    have hbt : (s.session_type != "term") = false := by simp [hterm]
    unfold generate
    simp only [hs, hbt, Bool.false_eq_true, if_false]
    rcases hnul with hdow | hst | het
    · simp only [hdow]
    · cases hdow : s.day_of_week with
      | none => simp only [hdow]
      | some dow => simp only [hdow, hst]
    · cases hdow : s.day_of_week with
      | none => simp only [hdow]
      | some dow =>
        cases hst : s.start_time with
        | none => simp only [hdow, hst]
        | some st => simp only [hdow, hst, het]
  · intro s dow st et hs hterm hdow hst het hb
    have hbt : (s.session_type != "term") = false := by simp [hterm]
    have hbe : (linked_blocks db sid).isEmpty = true := by rw [hb]; rfl
    unfold generate
    simp only [hs, hbt, Bool.false_eq_true, if_false, hdow, hst, het, hbe, if_true]
  · intro e h
    simp [run_request, h]

/-- C4 witness: the four error conditions at concrete databases. -/
theorem c4_witness :
    generate dbEmpty 1 = .error .notFound ∧
    generate dbSpecial 1 = .error (.validation "Occurrence generation is for term sessions") ∧
    generate dbIncomplete 1 = .error (.validation "Session schedule is incomplete") ∧
    generate dbNoBlocks 1 =
      .error (.validation "No blocks selected for this session. Please add blocks first.") :=
  ⟨(c4_generate_error_cases dbEmpty 1).1 (by decide),
   (c4_generate_error_cases dbSpecial 1).2.1 specialSession (by decide) (by decide),
   (c4_generate_error_cases dbIncomplete 1).2.2.1 incompleteSession (by decide) (by decide)
     (Or.inl (by decide)),
   (c4_generate_error_cases dbNoBlocks 1).2.2.2.1 wedSession 2 930 1020 (by decide) (by decide)
     (by decide) (by decide) (by decide) (by decide)⟩

/-- C6: scenario A — a Wednesday 15:30-17:00 term session with one block
2026-02-04 .. 2026-02-18 (whose start is already a Wednesday) and no
exclusions yields exactly the three occurrences 2026-02-04, 2026-02-11,
2026-02-18, each 15:30-17:00 local, with `created = 3` and
`skipped_existing = 0`; the anchoring offset for a block starting on the
session's weekday is 0, so the block's start date itself is the first
candidate. -/
theorem c6_scenario_a :
    generate dbScenarioA 1 =
      .ok ({ dbScenarioA with occurrences := [genOcc feb4, genOcc feb11, genOcc feb18] }, 3, 0) ∧
    weekday feb4 = 2 ∧
    (2 + 7 - weekday feb4) % 7 = 0 ∧
    first_candidate 2 blockA.start_date = blockA.start_date ∧
    feb11 = feb4 + 7 ∧ feb18 = feb4 + 14 :=
  ⟨by decide, by decide, by decide, by decide, by decide, by decide⟩

/-- C8: every occurrence inserted by `generate` falls on the session's
configured weekday (0 = Monday .. 6 = Sunday; the `DayOfWeekEnum` value
is always below 7), for every linked block and every generated date. -/
theorem c8_weekday_invariant (db : DB) (sid : Nat) (s : Session) (dow : Nat)
    (db2 : DB) (c k : Nat)
    (hs : db.sessions.find? (fun x => x.id == sid) = some s)
    (hdow : s.day_of_week = some dow) (h7 : dow < 7)
    (hg : generate db sid = .ok (db2, c, k)) :
    ∀ o ∈ db2.occurrences, o ∉ db.occurrences → weekday o.starts_at.date = dow := by
  obtain ⟨s2, dow2, st, et, hs2, hterm2, hdow2, hst2, het2, hne, hr⟩ :=
    generate_ok_inv db sid (db2, c, k) hg
  rw [hs] at hs2
  injection hs2 with hs2e
  subst hs2e
  rw [hdow] at hdow2
  injection hdow2 with hdow2e
  subst hdow2e
  simp only [Prod.mk.injEq] at hr
  obtain ⟨hdb2, -, -⟩ := hr
  intro o ho hnew
  rw [hdb2] at ho
  simp only at ho
  obtain ⟨ext, hext, hprov⟩ := gen_blocks_occs db sid st et dow (linked_blocks db sid)
    ⟨db.occurrences, 0, 0⟩
  have hocc : (generate_result db sid st et dow).occs = db.occurrences ++ ext := hext
  rw [hocc] at ho
  rcases List.mem_append.mp ho with hold | hnew2
  · exact absurd hold hnew
  · obtain ⟨b, hb, d, hd, hdn, hoe⟩ := hprov o hnew2
    obtain ⟨kk, hk, -⟩ := mem_candDays _ _ _ hd
    subst hoe
    show weekday (new_occ sid b.id d st et TZ).starts_at.date = dow
    have : (new_occ sid b.id d st et TZ).starts_at.date = d := rfl
    rw [this, hk, weekday_add_weeks]
    exact weekday_first_candidate dow b.start_date h7

/-- C8 witness: the invariant at scenario A. -/
theorem c8_witness :
    (dbScenarioA.sessions.find? (fun x => x.id == 1) = some wedSession ∧
      wedSession.day_of_week = some 2 ∧ 2 < 7) ∧
    (∀ o ∈ ({ dbScenarioA with
        occurrences := [genOcc feb4, genOcc feb11, genOcc feb18] } : DB).occurrences,
      o ∉ dbScenarioA.occurrences → weekday o.starts_at.date = 2) :=
  ⟨⟨by decide, by decide, by decide⟩,
   c8_weekday_invariant dbScenarioA 1 wedSession 2
     ({ dbScenarioA with occurrences := [genOcc feb4, genOcc feb11, genOcc feb18] }) 3 0
     (by decide) (by decide) (by decide) (by decide)⟩

/-- C2 counterexample: a block declaring the Sydney timezone still gets
its occurrence composed in the fixed Pacific/Auckland zone, refuting the
claim that the block's declared timezone is used whenever it differs from
the system default. -/
theorem c2_counterexample :
    blockSyd.timezone = "Australia/Sydney" ∧
    blockSyd ∈ linked_blocks dbSydney 1 ∧
    (generate dbSydney 1).map
        (fun r => r.1.occurrences.map (fun o => (o.starts_at.tz, o.ends_at.tz))) =
      .ok [("Pacific/Auckland", "Pacific/Auckland")] ∧
    ("Pacific/Auckland" : String) ≠ "Australia/Sydney" :=
  ⟨by decide, by decide, by decide, by decide⟩

/-- C2 (amended): every occurrence inserted by `generate` or by
`regenerate` has its `starts_at` and `ends_at` composed in the fixed
system zone Pacific/Auckland (`TZ`), regardless of the block's declared
timezone. -/
theorem c2_fixed_timezone (db : DB) (sid : Nat) :
    (∀ db2 c k, generate db sid = .ok (db2, c, k) →
      ∀ o ∈ db2.occurrences, o ∈ db.occurrences ∨
        (o.starts_at.tz = TZ ∧ o.ends_at.tz = TZ)) ∧
    (∀ delA db2 dct c k, regenerate db sid delA = .ok (db2, dct, c, k) →
      ∀ o ∈ db2.occurrences, o ∈ db.occurrences ∨
        (o.starts_at.tz = TZ ∧ o.ends_at.tz = TZ)) := by
  constructor
  · intro db2 c k hg o ho
    obtain ⟨s, dow, st, et, hs, hterm, hdow, hst, het, hne, hr⟩ :=
      generate_ok_inv db sid (db2, c, k) hg
    simp only [Prod.mk.injEq] at hr
    obtain ⟨hdb2, -, -⟩ := hr
    rw [hdb2] at ho
    simp only at ho
    obtain ⟨ext, hext, hprov⟩ := gen_blocks_occs db sid st et dow (linked_blocks db sid)
      ⟨db.occurrences, 0, 0⟩
    have hocc : (generate_result db sid st et dow).occs = db.occurrences ++ ext := hext
    rw [hocc] at ho
    rcases List.mem_append.mp ho with hold | hnew
    · exact Or.inl hold
    · obtain ⟨b, -, d, -, -, hoe⟩ := hprov o hnew
      subst hoe
      exact Or.inr ⟨rfl, rfl⟩
  · intro delA db2 dct c k hg o ho
    obtain ⟨s, st, et, hs, hterm, hst, het, hne, hr⟩ :=
      regenerate_ok_inv db sid delA (db2, dct, c, k) hg
    simp only [Prod.mk.injEq] at hr
    obtain ⟨hdb2, -, -, -⟩ := hr
    rw [hdb2] at ho
    simp only at ho
    obtain ⟨ext, hext, hprov⟩ := regen_blocks_occs db sid st et s.day_of_week
      (linked_blocks db sid) ⟨regen_kept db sid delA, 0, 0⟩
    have hocc : (regen_result db sid st et s.day_of_week delA).occs =
        regen_kept db sid delA ++ ext := hext
    rw [hocc] at ho
    rcases List.mem_append.mp ho with hold | hnew
    · left
      cases delA with
      | false => exact hold
      | true =>
        simp only [regen_kept, if_true] at hold
        exact List.mem_of_mem_filter hold
    · obtain ⟨v, d, b, -, -, -, -, -, -, hoe⟩ := hprov o hnew
      subst hoe
      exact Or.inr ⟨rfl, rfl⟩

/-- C2 witness: the amended property at the Sydney-block database. -/
theorem c2_witness :
    generate dbSydney 1 = .ok ({ dbSydney with occurrences := [genOcc feb4] }, 1, 0) ∧
    (∀ o ∈ ({ dbSydney with occurrences := [genOcc feb4] } : DB).occurrences,
      o ∈ dbSydney.occurrences ∨ (o.starts_at.tz = TZ ∧ o.ends_at.tz = TZ)) :=
  ⟨by decide,
   (c2_fixed_timezone dbSydney 1).1 ({ dbSydney with occurrences := [genOcc feb4] }) 1 0
     (by decide)⟩

/-- C7 counterexample: with two linked blocks of different `year` whose
admin-entered ranges overlap, an exclusion recorded for one block's year
(2026-02-11, a Wednesday inside the 2026 block's range) does not stop the
other block from creating an occurrence on that very date, refuting the
claim that no occurrence at all is created on an excluded date. -/
theorem c7_counterexample :
    (⟨2026, feb11⟩ : ExclusionDate) ∈ dbCrossYear.exclusions ∧
    blockA ∈ linked_blocks dbCrossYear 1 ∧ blockA.year = 2026 ∧
    weekday feb11 = 2 ∧ wedSession.day_of_week = some 2 ∧
    blockA.start_date ≤ feb11 ∧ feb11 ≤ blockA.end_date ∧
    (generate dbCrossYear 1).map
        (fun r => r.1.occurrences.any (fun o => o.starts_at.date == feb11)) = .ok true :=
  ⟨by decide, by decide, by decide, by decide, by decide, by decide, by decide, by decide⟩

/-- C7 (amended): exclusion matching is per block: for an excluded date of
a block's year, `generate` creates no occurrence attributed to that block
(`block_id`) on that date — assuming the primary-key property that block
identifiers are unique — and the loop body on an excluded day leaves the
accumulator untouched, counting the day neither as created nor as
skipped-existing. -/
theorem c7_exclusions_per_block (db : DB) (sid : Nat) (db2 : DB) (c k : Nat)
    (b : SessionBlock) (d : Nat)
    (hids : ∀ b1 ∈ db.blocks, ∀ b2 ∈ db.blocks, b1.id = b2.id → b1 = b2)
    (hg : generate db sid = .ok (db2, c, k))
    (hb : b ∈ linked_blocks db sid)
    (hd : d ∈ exclusions_for db b.year) :
    (∀ o ∈ db2.occurrences, o ∉ db.occurrences → o.block_id = some b.id →
      o.starts_at.date ≠ d) ∧
    (∀ st2 et2 acc, gen_step sid st2 et2 b.id (exclusions_for db b.year) acc d = acc) := by
  constructor
  · intro o ho hnew hbid
    obtain ⟨s, dow, st, et, hs, hterm, hdow, hst, het, hne, hr⟩ :=
      generate_ok_inv db sid (db2, c, k) hg
    simp only [Prod.mk.injEq] at hr
    obtain ⟨hdb2, -, -⟩ := hr
    rw [hdb2] at ho
    simp only at ho
    obtain ⟨ext, hext, hprov⟩ := gen_blocks_occs db sid st et dow (linked_blocks db sid)
      ⟨db.occurrences, 0, 0⟩
    have hocc : (generate_result db sid st et dow).occs = db.occurrences ++ ext := hext
    rw [hocc] at ho
    rcases List.mem_append.mp ho with hold | hnew2
    · exact absurd hold hnew
    · obtain ⟨b2, hb2, d2, hd2, hdn2, hoe⟩ := hprov o hnew2
      subst hoe
      have hbid2 : b2.id = b.id := by
        have : (new_occ sid b2.id d2 st et TZ).block_id = some b2.id := rfl
        rw [this] at hbid
        injection hbid
      have hbeq : b2 = b :=
        hids b2 (mem_linked_blocks db sid b2 hb2) b (mem_linked_blocks db sid b hb) hbid2
      subst hbeq
      intro hdate
      have : (new_occ sid b2.id d2 st et TZ).starts_at.date = d2 := rfl
      rw [this] at hdate
      subst hdate
      exact hdn2 hd
  · intro st2 et2 acc
    simp [gen_step, hd]

/-- C7 witness: scenario B — one 2026 block with an exclusion on
2026-02-11 yields only the 2026-02-04 and 2026-02-18 occurrences, and no
new occurrence of that block falls on the excluded date. -/
theorem c7_witness :
    generate dbScenarioB 1 =
      .ok ({ dbScenarioB with occurrences := [genOcc feb4, genOcc feb18] }, 2, 0) ∧
    (∀ o ∈ ({ dbScenarioB with occurrences := [genOcc feb4, genOcc feb18] } : DB).occurrences,
      o ∉ dbScenarioB.occurrences → o.block_id = some blockA.id → o.starts_at.date ≠ feb11) :=
  ⟨by decide,
   (c7_exclusions_per_block dbScenarioB 1
      ({ dbScenarioB with occurrences := [genOcc feb4, genOcc feb18] }) 2 0 blockA feb11
      (by decide) (by decide) (by decide) (by decide)).1⟩

/-- C5: a destructive `regenerate` (`delete_auto_generated = true`) keeps
every manually created occurrence of the session present and unmodified
(the very same row, hence identical `starts_at`, `ends_at`, `block_id`,
`cancelled`, `cancellation_reason`), and every row it removes was an
auto-generated row of that session. -/
theorem c5_manual_preserved (db : DB) (sid : Nat) (db2 : DB) (dct c k : Nat)
    (hg : regenerate db sid true = .ok (db2, dct, c, k)) :
    (∀ o ∈ db.occurrences, o.session_id = sid → o.auto_generated = false →
      o ∈ db2.occurrences) ∧
    (∀ o ∈ db.occurrences, o ∉ db2.occurrences →
      o.auto_generated = true ∧ o.session_id = sid) := by
  obtain ⟨s, st, et, hs, hterm, hst, het, hne, hr⟩ :=
    regenerate_ok_inv db sid true (db2, dct, c, k) hg
  simp only [Prod.mk.injEq] at hr
  obtain ⟨hdb2, -, -, -⟩ := hr
  obtain ⟨ext, hext, -⟩ := regen_blocks_occs db sid st et s.day_of_week
    (linked_blocks db sid) ⟨regen_kept db sid true, 0, 0⟩
  have hocc : db2.occurrences = regen_kept db sid true ++ ext := by
    rw [hdb2]
    exact hext
  constructor
  · intro o ho hsid hauto
    rw [hocc]
    apply List.mem_append_left
    simp only [regen_kept, if_true]
    rw [List.mem_filter]
    refine ⟨ho, ?_⟩
    simp [hauto]
  · intro o ho hno
    cases hpred : (o.session_id == sid && o.auto_generated) with
    | true =>
      rw [Bool.and_eq_true] at hpred
      exact ⟨hpred.2, by simpa using hpred.1⟩
    | false =>
      exfalso
      apply hno
      rw [hocc]
      apply List.mem_append_left
      simp only [regen_kept, if_true]
      rw [List.mem_filter]
      exact ⟨ho, by simp [hpred]⟩

/-- C5 witness: a manual occurrence at the candidate instant survives a
destructive regenerate that deletes the session's auto-generated row. -/
theorem c5_witness :
    regenerate dbManualAuto 1 true =
      .ok ({ dbManualAuto with occurrences := [manualOcc] }, 1, 0, 1) ∧
    manualOcc ∈ ({ dbManualAuto with occurrences := [manualOcc] } : DB).occurrences :=
  ⟨by decide,
   (c5_manual_preserved dbManualAuto 1 ({ dbManualAuto with occurrences := [manualOcc] }) 1 0 1
      (by decide)).1 manualOcc (by decide) (by decide) (by decide)⟩

/-- C1 counterexample: for a Monday session (`day_of_week = 0`, which is
falsy for Python's `IntEnum`) with a one-day block on a Monday,
`generate` inserts one occurrence while `regenerate` with
`delete_auto_generated = false` inserts none, so the two entry points do
not produce the same inserted occurrences and counts. -/
theorem c1_counterexample :
    mondaySession.day_of_week = some 0 ∧
    (generate dbMonday 1).map (fun r => (r.1.occurrences, r.2.1, r.2.2)) =
      .ok ([genOcc feb2], 1, 0) ∧
    (regenerate dbMonday 1 false).map (fun r => (r.1.occurrences, r.2.2.1, r.2.2.2)) =
      .ok ([], 0, 0) ∧
    (generate dbMonday 1).map (fun r => (r.1.occurrences, r.2.1, r.2.2)) ≠
      (regenerate dbMonday 1 false).map (fun r => (r.1.occurrences, r.2.2.1, r.2.2.2)) :=
  ⟨by decide, by decide, by decide, by decide⟩

/-- One loop step of `regenerate` coincides with one loop step of
`generate` on a day that lies on the session's (non-Monday) weekday. -/
theorem regen_step_eq_gen_step (sid st et bid dow : Nat) (excl : List Nat) (acc : GenAcc)
    (day : Nat) (hdow0 : dow ≠ 0) (hwd : weekday day = dow) :
    regen_step sid st et bid (some dow) excl "Pacific/Auckland" acc day =
      gen_step sid st et bid excl acc day := by
  have h1 : (dow != 0) = true := by simpa using hdow0
  have h2 : (weekday day == dow) = true := by simpa using hwd
  by_cases hex : day ∈ excl
  · have h3 : (!(decide (day ∈ excl))) = false := by simp [hex]
    simp [regen_step, gen_step, h1, h2, h3, hex]
  · have h3 : (!(decide (day ∈ excl))) = true := by simp [hex]
    simp [regen_step, gen_step, h1, h2, h3, hex, combine_local_date_time, datetime_combine,
      new_occ, TZ]

/-- Per block, the `regenerate` walk coincides with the `generate` walk
whenever the block starts on the session's (non-Monday) weekday: the
anchoring offset is zero and every visited day passes the weekday test. -/
theorem regen_block_eq_gen_block (db : DB) (sid st et dow : Nat) (b : SessionBlock)
    (acc : GenAcc) (hdow0 : dow ≠ 0) (hb : weekday b.start_date = dow) :
    regen_block db sid st et (some dow) acc b = gen_block db sid st et dow acc b := by
  unfold regen_block gen_block
  rw [first_candidate_eq_self dow b.start_date hb]
  apply foldl_congr_mem
  intro acc2 d hd
  obtain ⟨kk, hk, -⟩ := mem_candDays _ _ _ hd
  have hwd : weekday d = dow := by rw [hk, weekday_add_weeks, hb]
  exact regen_step_eq_gen_step sid st et b.id dow (exclusions_for db b.year) acc2 d hdow0 hwd

/-- C1 (amended): `regenerate` with `delete_auto_generated = false`
behaves exactly like `generate` (same state, same created and
skipped-existing counts, `deleted = 0`) provided the session's
day_of_week is not Monday (0) and every linked block's start date already
falls on that weekday; the Monday counterexample and non-anchored blocks
are excluded, and block timezones are irrelevant because both paths use
the fixed zone. -/
theorem c1_regen_matches_generate (db : DB) (sid : Nat) (s : Session) (dow st et : Nat)
    (hs : db.sessions.find? (fun x => x.id == sid) = some s)
    (hterm : s.session_type = "term")
    (hdow : s.day_of_week = some dow) (hdow0 : dow ≠ 0)
    (hst : s.start_time = some st) (het : s.end_time = some et)
    (hanchor : ∀ b ∈ linked_blocks db sid, weekday b.start_date = dow) :
    regenerate db sid false = (generate db sid).map (fun r => (r.1, 0, r.2.1, r.2.2)) := by
  by_cases hb : linked_blocks db sid = []
  · have hbe : (linked_blocks db sid).isEmpty = true := by rw [hb]; rfl
    have hbt : (s.session_type != "term") = false := by simp [hterm]
    unfold generate regenerate
    simp only [hs, hbt, Bool.false_eq_true, if_false, hdow, hst, het, hbe, if_true]
    rfl
  · rw [generate_eq db sid s dow st et hs hterm hdow hst het hb,
        regenerate_eq db sid false s st et hs hterm hst het hb]
    have hkept : regen_kept db sid false = db.occurrences := rfl
    have hres : regen_result db sid st et s.day_of_week false =
        generate_result db sid st et dow := by
      unfold regen_result generate_result
      rw [hkept, hdow]
      exact foldl_congr_mem (linked_blocks db sid) _ _ ⟨db.occurrences, 0, 0⟩
        (fun acc b hbm => regen_block_eq_gen_block db sid st et dow b acc hdow0 (hanchor b hbm))
    rw [hres, hkept]
    simp [Except.map, Nat.sub_self]

/-- C1 witness: on scenario A (Wednesday session, block starting on a
Wednesday) the two entry points agree. -/
theorem c1_witness :
    (wedSession.day_of_week = some 2 ∧ (2 : Nat) ≠ 0 ∧
      (∀ b ∈ linked_blocks dbScenarioA 1, weekday b.start_date = 2)) ∧
    regenerate dbScenarioA 1 false =
      (generate dbScenarioA 1).map (fun r => (r.1, 0, r.2.1, r.2.2)) :=
  ⟨⟨by decide, by decide, by decide⟩,
   c1_regen_matches_generate dbScenarioA 1 wedSession 2 930 1020 (by decide) (by decide)
     (by decide) (by decide) (by decide) (by decide) (by decide)⟩

/-- C3 counterexample: with a pre-existing occurrence at one candidate
instant, the first `generate` reports `created = 2, skipped_existing = 1`
and the second reports `skipped_existing = 3`, which differs from the
first call's `created` count — refuting the claimed equality
`skipped_existing (2nd) = created (1st)`. -/
theorem c3_counterexample :
    (generate dbPreExisting 1).map (fun r => r.2.1) = .ok 2 ∧
    ((generate dbPreExisting 1).bind (fun r => generate r.1 1)).map (fun r => r.2.2) = .ok 3 ∧
    ((generate dbPreExisting 1).bind (fun r => generate r.1 1)).map (fun r => r.2.2) ≠
      (generate dbPreExisting 1).map (fun r => r.2.1) :=
  ⟨by decide, by decide, by decide⟩

/-- C3 (amended): calling `generate` twice in succession (no intervening
change) yields `created = 0` on the second call, a second
`skipped_existing` equal to the first call's `created` plus the first
call's `skipped_existing` (they coincide with the claimed `created` only
when nothing was skipped on the first call), and an unchanged persisted
occurrence set. -/
theorem c3_second_generate_idempotent (db : DB) (sid : Nat) (db1 db2 : DB)
    (c1 k1 c2 k2 : Nat)
    (h1 : generate db sid = .ok (db1, c1, k1))
    (h2 : generate db1 sid = .ok (db2, c2, k2)) :
    c2 = 0 ∧ k2 = c1 + k1 ∧ db2.occurrences = db1.occurrences := by
  obtain ⟨s, dow, st, et, hs, hterm, hdow, hst, het, hne, hr⟩ :=
    generate_ok_inv db sid (db1, c1, k1) h1
  simp only [Prod.mk.injEq] at hr
  obtain ⟨hdb1, hc1, hk1⟩ := hr
  have hsess : db1.sessions = db.sessions := by rw [hdb1]
  have hlinked : linked_blocks db1 sid = linked_blocks db sid := by
    rw [hdb1]
    rfl
  have hexcl : ∀ y, exclusions_for db1 y = exclusions_for db y := by
    intro y
    rw [hdb1]
    rfl
  have hocc1 : db1.occurrences = (generate_result db sid st et dow).occs := by rw [hdb1]
  have hfind1 : db1.sessions.find? (fun x => x.id == sid) = some s := by
    rw [hsess]
    exact hs
  have hne1 : linked_blocks db1 sid ≠ [] := by
    rw [hlinked]
    exact hne
  have h2c := generate_eq db1 sid s dow st et hfind1 hterm hdow hst het hne1
  rw [h2c] at h2
  simp only [Except.ok.injEq, Prod.mk.injEq] at h2
  obtain ⟨hdb2, hc2, hk2⟩ := h2
  have hcomplete : ∀ b ∈ linked_blocks db sid,
      ∀ d ∈ candDays b.end_date (first_candidate dow b.start_date),
        d ∉ exclusions_for db b.year →
        occ_exists_at db1.occurrences sid (combine_local_date_time d st) = true := by
    intro b hb d hd hdn
    rw [hocc1]
    exact gen_blocks_complete db sid st et dow (linked_blocks db sid)
      ⟨db.occurrences, 0, 0⟩ b hb d hd hdn
  have hgb : ∀ acc b, b ∈ linked_blocks db sid →
      gen_block db1 sid st et dow acc b = gen_block db sid st et dow acc b := by
    intro acc b _
    unfold gen_block
    rw [hexcl]
  have hres2 : generate_result db1 sid st et dow =
      ⟨db1.occurrences, 0,
        0 + ((linked_blocks db sid).map (block_cand_count db dow)).sum⟩ := by
    unfold generate_result
    rw [hlinked]
    rw [foldl_congr_mem (linked_blocks db sid) (gen_block db1 sid st et dow)
      (gen_block db sid st et dow) ⟨db1.occurrences, 0, 0⟩ hgb]
    exact gen_blocks_all_exist db sid st et dow (linked_blocks db sid)
      db1.occurrences 0 0 hcomplete
  have hsum : c1 + k1 = ((linked_blocks db sid).map (block_cand_count db dow)).sum := by
    have hcounts := gen_blocks_counts db sid st et dow (linked_blocks db sid)
      ⟨db.occurrences, 0, 0⟩
    rw [hc1, hk1]
    have : (generate_result db sid st et dow).created +
        (generate_result db sid st et dow).skipped_existing =
        0 + 0 + ((linked_blocks db sid).map (block_cand_count db dow)).sum := hcounts
    omega
  refine ⟨?_, ?_, ?_⟩
  · rw [← hc2, hres2]
  · rw [← hk2, hres2, hsum]
    simp
  · rw [← hdb2]
    simp only
    rw [hres2]

/-- C3 witness: the amended double-generate property at the database with
one pre-existing occurrence (first call: 2 created, 1 skipped; second
call: 0 created, 3 skipped, unchanged rows). -/
theorem c3_witness :
    generate dbPreExisting 1 =
      .ok ({ dbPreExisting with occurrences := [manualOcc, genOcc feb11, genOcc feb18] }, 2, 1) ∧
    generate ({ dbPreExisting with occurrences := [manualOcc, genOcc feb11, genOcc feb18] }) 1 =
      .ok ({ dbPreExisting with occurrences := [manualOcc, genOcc feb11, genOcc feb18] }, 0, 3) ∧
    (0 = 0 ∧ 3 = 2 + 1 ∧
      ({ dbPreExisting with occurrences := [manualOcc, genOcc feb11, genOcc feb18] } : DB).occurrences =
        ({ dbPreExisting with occurrences := [manualOcc, genOcc feb11, genOcc feb18] } : DB).occurrences) :=
  ⟨by decide, by decide,
   c3_second_generate_idempotent dbPreExisting 1
     ({ dbPreExisting with occurrences := [manualOcc, genOcc feb11, genOcc feb18] })
     ({ dbPreExisting with occurrences := [manualOcc, genOcc feb11, genOcc feb18] }) 2 1 0 3
     (by decide) (by decide)⟩
